import Mathlib

/-!
Verification development for the GPGSM save-file scanner (`scanning.py`).

The Python module is shallowly embedded: the classifier
`detect_console_type`, the traversal `scan_directory` (built on `os.walk`),
the loader `load_ignore_list` and the thread wrapper `ScannerThread.run`
become executable Lean functions.  The filesystem is modelled as a tree of
entries in which a directory listing may fail (`os.scandir` error, swallowed
by `os.walk` because no `onerror` handler is passed) and a file's
modification time may be unreadable (`os.path.getmtime` raising, which the
source does not catch).  Strings are processed character-wise; Python's
`str.lower` is modelled on ASCII, which covers every table key and
extension in the source.
-/

namespace GPGSM

/-- ASCII lower-casing of one character (models Python `str.lower` on the
ASCII range; all table keys and extensions in the source are ASCII). -/
def lowerChar (c : Char) : Char :=
  if 'A' ≤ c ∧ c ≤ 'Z' then Char.ofNat (c.toNat + 32) else c

/-- `s.lower()`: character-wise lower-casing. -/
def lowerStr (s : String) : String := String.mk (s.data.map lowerChar)

/-- Python's substring test `needle in hay`. -/
def substrB (needle hay : String) : Bool := decide (needle.data <:+: hay.data)

/-- Split a character list at every occurrence of a separator. -/
def splitChar (sep : Char) : List Char → List (List Char)
  | [] => [[]]
  | c :: rest =>
    let r := splitChar sep rest
    if c = sep then [] :: r
    else
      match r with
      | [] => [[c]]
      | g :: gs => (c :: g) :: gs

/-- The final path component, as `pathlib.PurePath.name`: split on the
slash, drop empty and dot components, take the last one (or `""`). -/
def pathlibName (p : String) : String :=
  String.mk (((splitChar '/' p.data).filter
    (fun s => decide (s ≠ [] ∧ s ≠ ['.']))).getLastD [])

/-- Index of the last occurrence of a character in a list, if any. -/
def lastIdxOf (c : Char) : List Char → Option Nat
  | [] => none
  | a :: rest =>
    match lastIdxOf c rest with
    | some i => some (i + 1)
    | none => if a = c then some 0 else none

/-- `pathlib` suffix rule applied to a file NAME: `name[i:]` where `i` is
the index of the last dot, provided `0 < i < len(name) - 1`; else `""`. -/
def sufChars (cs : List Char) : List Char :=
  match lastIdxOf '.' cs with
  | some i => if 0 < i ∧ i + 1 < cs.length then cs.drop i else []
  | none => []

/-- `pathlib` stem rule: the name with its suffix removed. -/
def stemChars (cs : List Char) : List Char :=
  cs.take (cs.length - (sufChars cs).length)

/-- `Path(p).suffix` for a whole path string. -/
def pathSuffix (p : String) : String := String.mk (sufChars (pathlibName p).data)

/-- A classification result `(console_type, emulator, hardware_type)`. -/
abbrev Triple := String × String × String

/-- A value of the extension table: either a direct triple, or a
sub-mapping from path-substring keys to triples (insertion-ordered, as a
Python dict is). -/
inductive ConsoleInfo where
  | direct (v : Triple)
  | sub (m : List (String × Triple))

/-- The `.sav` sub-mapping of `console_patterns`, in Python dict
insertion order. -/
def savSub : List (String × Triple) :=
  [("gb",   ("Game Boy", "mGBA/VBA", "Original")),
   ("gbc",  ("GBC", "mGBA/VBA", "Color")),
   ("gba",  ("GBA", "mGBA/VBA", "Advance")),
   ("nes",  ("NES", "FCEUX", "Original")),
   ("snes", ("SNES", "SNES9x", "Original"))]

/-- The `.srm` sub-mapping of `console_patterns`, in Python dict
insertion order. -/
def srmSub : List (String × Triple) :=
  [("snes", ("SNES", "SNES9x", "Original")),
   ("gba", ("GBA", "mGBA", "Advance")),
   ("genesis", ("Sega Genesis", "Fusion", "Original"))]

/-- The `console_patterns` table of `detect_console_type`, with Python's
dict insertion order made explicit as list order. -/
def console_patterns : List (String × ConsoleInfo) := [
  (".sav", .sub savSub),
  (".srm", .sub srmSub),
  (".mcr", .direct ("PS1", "ePSXe", "Original")),
  (".mc", .direct ("PS2", "PCSX2", "Original")),
  (".mem", .direct ("N64", "Project64", "Original")),
  (".gci", .direct ("GameCube", "Dolphin", "Original")),
  (".sram", .direct ("SNES", "ZSNES", "Original")),
  (".dsv", .direct ("DS", "DeSmuME", "Original")),
  (".duc", .direct ("DS", "DraStic", "Original")),
  (".nps", .direct ("PSP", "PPSSPP", "Original")),
  (".vms", .direct ("Dreamcast", "NullDC", "Original")),
  (".sav2", .direct ("3DS", "Citra", "Original")),
  (".dat", .direct ("PS3", "RPCS3", "Original")),
  (".bin", .direct ("PS Vita", "Vita3K", "Original")),
  (".nv", .direct ("Switch", "Yuzu", "Original"))]

/-- Lines 89-91 / 94-96 / 98-100 of the source: take the first
"/"-separated candidate of the emulator label (`value[1].split('/')[0]`),
look it up in `emulator_paths` with default `""`, and return
`emulator_path or label` (Python: empty string is falsy). -/
def resolveEmulator (emulator_paths : List (String × String)) (label : String) : String :=
  let emulator_name := String.mk ((splitChar '/' label.data).headD [])
  let emulator_path :=
    ((emulator_paths.find? (fun p => p.1 == emulator_name)).map Prod.snd).getD ""
  if emulator_path == "" then label else emulator_path

/-- The sub-mapping branch of `detect_console_type` (lines 84-96 of the
source): scan the sub-mapping's keys in order for one occurring as a
substring of the lower-cased path `fp`; on a hit return its triple, else
default to the first entry.  (For an empty sub-mapping the Python
`next(iter(...))` would raise; the fixed table has none.) -/
def subLookup (emulator_paths : List (String × String)) (fp : String)
    (m : List (String × Triple)) : Triple :=
  match m.find? (fun kv => substrB kv.1 fp) with
  | some (_, v) => (v.1, resolveEmulator emulator_paths v.2.1, v.2.2)
  | none =>
    match m with
    | [] => ("PC", "Unknown", "Unknown")
    | (_, v) :: _ => (v.1, resolveEmulator emulator_paths v.2.1, v.2.2)

/-- `detect_console_type(file_path)` of `scanning.py`.  The
`emulator_paths` mapping (the parsed `config.json`, `{}` when unreadable)
is passed as a parameter since the embedding performs no I/O.  `str(path)`
is taken to be the lower-cased input itself: the `Path` round-trip only
normalizes repeated slashes, which no table key contains. -/
def detect_console_type (emulator_paths : List (String × String))
    (file_path : String) : Triple :=
  match console_patterns.find? (fun p => pathSuffix (lowerStr file_path) == p.1) with
  | none => ("PC", "Unknown", "Unknown")
  | some (_, .direct v) => (v.1, resolveEmulator emulator_paths v.2.1, v.2.2)
  | some (_, .sub m) => subLookup emulator_paths (lowerStr file_path) m

/-- One record of `scan_directory`'s result list.  `date_modified` keeps
the raw modification time; the `strftime` formatting is presentation only
and not needed by any claim. -/
structure SaveInfo where
  console_type : String
  game_name : String
  save_path : String
  date_modified : Nat
  emulator : String
  hardware_type : String
deriving Repr, DecidableEq

/-- Drop characters up to and including the first closing bracket
(`]` or `)`), as the non-greedy regex tail `.*?[\])]` consumes them;
`none` when no closing bracket follows (the regex match fails there). -/
def dropToClose : List Char → Option (List Char)
  | [] => none
  | c :: rest => if c = ']' ∨ c = ')' then some rest else dropToClose rest

/-- `re.sub(r'[\[(].*?[\])]', '', s)`: left-to-right, at each opening
bracket remove through the nearest closing bracket; an opener with no
closer ahead is kept.  (The regex `.` does not match a newline; file
names with embedded newlines are outside the model.)  The `fuel`
argument only makes the recursion structural — `removeBrackets` always
supplies enough, every step consumes at least one character. -/
def removeBracketsAux : Nat → List Char → List Char
  | 0, cs => cs
  | _ + 1, [] => []
  | fuel + 1, c :: rest =>
    if c = '[' ∨ c = '(' then
      match dropToClose rest with
      | some rest2 => removeBracketsAux fuel rest2
      | none => c :: removeBracketsAux fuel rest
    else c :: removeBracketsAux fuel rest

def removeBrackets (cs : List Char) : List Char := removeBracketsAux cs.length cs

/-- The separator class of `re.sub(r'[._-]', ' ', s)`. -/
def sepChar (c : Char) : Bool := c = '.' ∨ c = '_' ∨ c = '-'

/-- Python `str.strip()` whitespace set (ASCII part). -/
def isPySpace (c : Char) : Bool :=
  c = ' ' ∨ c = '\t' ∨ c = '\n' ∨ c = '\r' ∨ c = '\x0b' ∨ c = '\x0c'

/-- Strip leading and trailing whitespace. -/
def stripChars (cs : List Char) : List Char :=
  ((cs.dropWhile isPySpace).reverse.dropWhile isPySpace).reverse

/-- Lines 134-137 of the source: `game_name = Path(file).stem`, then
remove bracketed content, then replace each of `.`, `_`, `-` by a space
(one space per character — the regex has no `+`), then `strip()`. -/
def gameName (file : String) : String :=
  String.mk (stripChars ((removeBrackets (stemChars file.data)).map
    (fun c => if sepChar c then ' ' else c)))

/-- The fixed `save_extensions` set. -/
def save_extensions : List String :=
  [".sav", ".srm", ".mcr", ".mc", ".mem", ".gci",
   ".sram", ".dsv", ".duc", ".nps", ".vms", ".sav2",
   ".dat", ".bin", ".nv"]

/-- A filesystem tree.  A directory whose `listing` is `none` is one on
which `os.scandir` fails (nonexistent or permission-denied); a file whose
`mtime` is `none` is one on which `os.path.getmtime` raises (e.g. removed
between listing and stat). -/
inductive FSEntry where
  | dir (name : String) (listing : Option (List FSEntry))
  | file (name : String) (mtime : Option Nat)
deriving Repr

/-- `os.path.join(root, name)` for a relative `name`, as produced by the
walk. -/
def joinPath (a b : String) : String := a ++ "/" ++ b

/-- The body of the `for file in files` loop of `scan_directory`, over the
file entries of one directory (directory entries belong to `dirs`, not
`files`, and are skipped here).  An unreadable modification time raises,
aborting the whole scan: nothing in the source catches it. -/
def scanFilesList (ignore_files : List String)
    (emulator_paths : List (String × String)) (root : String) :
    List FSEntry → Except String (List SaveInfo)
  | [] => .ok []
  | .dir _ _ :: rest => scanFilesList ignore_files emulator_paths root rest
  | .file name mtime :: rest =>
    if name ∈ ignore_files then
      scanFilesList ignore_files emulator_paths root rest
    else if String.mk ((sufChars name.data).map lowerChar) ∈ save_extensions then
      let file_path := joinPath root name
      match mtime with
      | none => .error ("No such file or directory: " ++ file_path)
      | some t =>
        match scanFilesList ignore_files emulator_paths root rest with
        | .error e => .error e
        | .ok rs =>
          let r := detect_console_type emulator_paths file_path
          .ok ({ console_type := r.1, game_name := gameName name,
                 save_path := file_path, date_modified := t,
                 emulator := r.2.1, hardware_type := r.2.2 } :: rs)
    else scanFilesList ignore_files emulator_paths root rest

mutual

/-- `os.walk(root)` fused with the loop body of `scan_directory`:
at each yielded directory, prune subdirectories whose name is in
`ignore_dirs`, process the files, then recurse into the remaining
subdirectories.  A failed listing is swallowed (`os.walk` is called with
no `onerror` handler), yielding nothing for that directory. -/
def scanWalk (ignore_dirs ignore_files : List String)
    (emulator_paths : List (String × String)) (root : String) :
    FSEntry → Except String (List SaveInfo)
  | .file _ _ => .ok []
  | .dir _ none => .ok []
  | .dir _ (some entries) =>
    match scanFilesList ignore_files emulator_paths root entries with
    | .error e => .error e
    | .ok frecs =>
      match scanSubdirs ignore_dirs ignore_files emulator_paths root entries with
      | .error e => .error e
      | .ok srecs => .ok (frecs ++ srecs)

/-- Recursion of the walk into the non-pruned subdirectories, in listing
order. -/
def scanSubdirs (ignore_dirs ignore_files : List String)
    (emulator_paths : List (String × String)) (root : String) :
    List FSEntry → Except String (List SaveInfo)
  | [] => .ok []
  | .file _ _ :: rest =>
    scanSubdirs ignore_dirs ignore_files emulator_paths root rest
  | .dir n l :: rest =>
    if n ∈ ignore_dirs then
      scanSubdirs ignore_dirs ignore_files emulator_paths root rest
    else
      match scanWalk ignore_dirs ignore_files emulator_paths
          (joinPath root n) (.dir n l) with
      | .error e => .error e
      | .ok rs =>
        match scanSubdirs ignore_dirs ignore_files emulator_paths root rest with
        | .error e => .error e
        | .ok rs2 => .ok (rs ++ rs2)

end

/-- The parsed shape of `ignore.json`: each of the two fields may be
absent (`dict.get` then defaults it). -/
structure IgnoreData where
  ignore_directories : Option (List String)
  ignore_files : Option (List String)
deriving Repr, DecidableEq

/-- `load_ignore_list()` of `scanning.py`.  The file read and
`json.loads` happen outside the embedding, so their outcome is the
argument: `none` — `ignore.json` does not exist; `some (.error e)` —
reading or parsing raised (the `except` branch prints and falls
through); `some (.ok d)` — parsed data, each list defaulted to `[]` when
its key is absent. -/
def load_ignore_list (file : Option (Except String IgnoreData)) :
    List String × List String :=
  match file with
  | none => ([], [])
  | some (.error _) => ([], [])
  | some (.ok d) => (d.ignore_directories.getD [], d.ignore_files.getD [])

/-- `scan_directory(directory)` of `scanning.py`, over a modelled
filesystem tree for the root.  `cfgFile` is the state of `ignore.json`,
`emulator_paths` the parsed `config.json` used by the classifier. -/
def scan_directory (cfgFile : Option (Except String IgnoreData))
    (emulator_paths : List (String × String))
    (directory : String) (tree : FSEntry) : Except String (List SaveInfo) :=
  let p := load_ignore_list cfgFile
  scanWalk p.1 p.2 emulator_paths directory tree

/-- The terminal signal `ScannerThread.run` emits: `finished_signal` with
the results, or `error_signal` with the exception text. -/
inductive ScanSignal where
  | finished (results : List SaveInfo)
  | error (message : String)
deriving Repr, DecidableEq

/-- `ScannerThread.run`: call `scan_directory`; on success emit the
results, on an exception emit its message. -/
def scannerRun (cfgFile : Option (Except String IgnoreData))
    (emulator_paths : List (String × String))
    (directory : String) (tree : FSEntry) : ScanSignal :=
  match scan_directory cfgFile emulator_paths directory tree with
  | .ok rs => .finished rs
  | .error e => .error e

/-- The emulator-resolution step as the specification words it: take the
first "/"-separated candidate name of the label, look it up in the
configuration, and return the configured path when one is present and
non-empty, else the original label.  Stated independently of
`resolveEmulator` to compare the two. -/
def resolveEmulatorSpec (emulator_paths : List (String × String))
    (label : String) : String :=
  let emulator_name := String.mk ((splitChar '/' label.data).headD [])
  match emulator_paths.find? (fun p => p.1 == emulator_name) with
  | some (_, cfg) => if cfg ≠ "" then cfg else label
  | none => label

/-- The separator step of the game-name cleanup as the specification
words it: every RUN of `.`, `_`, `-` characters collapses to a single
space.  Stated independently of `gameName` to compare the two. -/
def collapseSeps : List Char → List Char
  | [] => []
  | [c] => if sepChar c then [' '] else [c]
  | c :: d :: rest =>
    if sepChar c ∧ sepChar d then collapseSeps (d :: rest)
    else (if sepChar c then ' ' else c) :: collapseSeps (d :: rest)

/-- The whole game-name cleanup as the specification words it (stem,
brackets removed, separator runs collapsed to one space, trimmed). -/
def gameNameSpecRuns (file : String) : String :=
  String.mk (stripChars (collapseSeps (removeBrackets (stemChars file.data))))

/-- The directory path reached from `root` through a chain of
subdirectory components, each appended by `os.path.join`. -/
def chainPath (root : String) (comps : List String) : String :=
  comps.foldl joinPath root

/-- A chain of directory entries in a filesystem tree, leading from the
tree's root to a file entry: `TreePath t comps name mt` holds when
descending from `t` through nested directory entries named by `comps`
(in order) reaches a listing containing `.file name mt`. -/
inductive TreePath : FSEntry → List String → String → Option Nat → Prop where
  | here : ∀ nm es name mt, FSEntry.file name mt ∈ es →
      TreePath (.dir nm (some es)) [] name mt
  | deeper : ∀ nm es d sub comps name mt, FSEntry.dir d sub ∈ es →
      TreePath (.dir d sub) comps name mt →
      TreePath (.dir nm (some es)) (d :: comps) name mt

/-! ### Helper lemmas -/

theorem substrB_mono {a b : String} (hab : a.data <:+: b.data) :
    ∀ s, substrB b s = true → substrB a s = true := by
  intro s hs
  have hb : b.data <:+: s.data := of_decide_eq_true hs
  exact decide_eq_true (hab.trans hb)

theorem scanFilesList_dirdrop : ∀ (igf : List String) (emu : List (String × String))
    (root : String) (es1 : List FSEntry) (m : String) (l : Option (List FSEntry))
    (es2 : List FSEntry),
    scanFilesList igf emu root (es1 ++ .dir m l :: es2) =
    scanFilesList igf emu root (es1 ++ es2) := by
  intro igf emu root es1 m l es2
  induction es1 with
  | nil => simp [scanFilesList]
  | cons e rest ih =>
    cases e with
    | dir n2 l2 => simpa [scanFilesList] using ih
    | file name mt =>
      by_cases h1 : name ∈ igf
      · simpa [scanFilesList, h1] using ih
      · by_cases h2 : String.mk ((sufChars name.data).map lowerChar) ∈ save_extensions
        · cases mt with
          | none => simp [scanFilesList, h1, h2]
          | some t => simp [scanFilesList, h1, h2, ih]
        · simpa [scanFilesList, h1, h2] using ih

theorem scanSubdirs_errdrop : ∀ (igd igf : List String) (emu : List (String × String))
    (root : String) (es1 : List FSEntry) (m : String) (es2 : List FSEntry),
    scanSubdirs igd igf emu root (es1 ++ .dir m none :: es2) =
    scanSubdirs igd igf emu root (es1 ++ es2) := by
  intro igd igf emu root es1 m es2
  induction es1 with
  | nil =>
    by_cases hm : m ∈ igd
    · simp [scanSubdirs, hm]
    · simp only [List.nil_append, scanSubdirs, hm, if_neg, ite_false]
      rcases h2 : scanSubdirs igd igf emu root es2 with e | rs2 <;> simp [scanWalk, h2, hm]
  | cons e rest ih =>
    cases e with
    | file name mt => simpa [scanSubdirs] using ih
    | dir n2 l2 =>
      by_cases hn : n2 ∈ igd
      · simpa [scanSubdirs, hn] using ih
      · rcases hw : scanWalk igd igf emu (joinPath root n2) (.dir n2 l2) with e2 | rs <;>
          simp [scanSubdirs, hn, hw, ih]

theorem scanFilesList_sound : ∀ (igf : List String) (emu : List (String × String))
    (root : String) (es : List FSEntry) (rs : List SaveInfo),
    scanFilesList igf emu root es = .ok rs →
    ∀ r ∈ rs, ∃ name mt, FSEntry.file name mt ∈ es ∧
      r.save_path = joinPath root name := by
  intro igf emu root es
  induction es with
  | nil =>
    intro rs h r hr
    simp only [scanFilesList, Except.ok.injEq] at h
    subst h
    simp at hr
  | cons e rest ih =>
    intro rs h r hr
    cases e with
    | dir n l =>
      simp only [scanFilesList] at h
      rcases ih rs h r hr with ⟨nm, mt, hmem, hp⟩
      exact ⟨nm, mt, List.mem_cons_of_mem _ hmem, hp⟩
    | file name mt =>
      by_cases h1 : name ∈ igf
      · rcases ih rs (by simpa [scanFilesList, h1] using h) r hr with ⟨nm, mt2, hmem, hp⟩
        exact ⟨nm, mt2, List.mem_cons_of_mem _ hmem, hp⟩
      · by_cases h2 : String.mk ((sufChars name.data).map lowerChar) ∈ save_extensions
        · cases mt with
          | none => simp [scanFilesList, h1, h2] at h
          | some t =>
            rcases hrec : scanFilesList igf emu root rest with e2 | rs2
            · simp [scanFilesList, h1, h2, hrec] at h
            · simp only [scanFilesList, h1, h2, hrec, if_neg, if_pos, ite_true,
                ite_false, Except.ok.injEq] at h
              subst h
              rcases List.mem_cons.mp hr with hr1 | hr2
              · subst hr1
                exact ⟨name, some t, List.mem_cons_self _ _, rfl⟩
              · rcases ih rs2 hrec r hr2 with ⟨nm, mt2, hmem, hp⟩
                exact ⟨nm, mt2, List.mem_cons_of_mem _ hmem, hp⟩
        · rcases ih rs (by simpa [scanFilesList, h1, h2] using h) r hr with ⟨nm, mt2, hmem, hp⟩
          exact ⟨nm, mt2, List.mem_cons_of_mem _ hmem, hp⟩

theorem scanSubdirs_igdrop : ∀ (igd igf : List String) (emu : List (String × String))
    (root : String) (es1 : List FSEntry) (d : String) (sub : Option (List FSEntry))
    (es2 : List FSEntry), d ∈ igd →
    scanSubdirs igd igf emu root (es1 ++ .dir d sub :: es2) =
    scanSubdirs igd igf emu root (es1 ++ es2) := by
  intro igd igf emu root es1 d sub es2 hd
  induction es1 with
  | nil => simp [scanSubdirs, hd]
  | cons e rest ih =>
    cases e with
    | file name mt => simpa [scanSubdirs] using ih
    | dir n2 l2 =>
      by_cases hn : n2 ∈ igd
      · simpa [scanSubdirs, hn] using ih
      · rcases hw : scanWalk igd igf emu (joinPath root n2) (.dir n2 l2) with e2 | rs <;>
          simp [scanSubdirs, hn, hw, ih]

/-! ### Claims about the classifier -/

/-- C1, counterexample: the claim predicts console_type `"GBA"` for the
`.sav` path `/games/gba/pokemon.sav`, but the code returns `"Game Boy"`:
the sub-mapping key `"gb"` is scanned before `"gba"` and occurs inside
every occurrence of `"gba"`. -/
theorem C1_counterexample :
    (detect_console_type [] "/games/gba/pokemon.sav").1 = "Game Boy" ∧
    ("Game Boy" : String) ≠ "GBA" := ⟨rfl, by decide⟩

/-- C1 (amended): for a lower-cased `.sav` path, containing `"gba"`
implies containing `"gb"`, so the first matching key is `"gb"` and the
console_type is `"Game Boy"` (not `"GBA"`); a path containing `"nes"`
but no other handled sub-mapping key yields `"NES"`, as claimed. -/
theorem C1_theorem :
    (∀ (emulator_paths : List (String × String)) (path : String),
      pathSuffix (lowerStr path) = ".sav" →
      substrB "gba" (lowerStr path) = true →
      (detect_console_type emulator_paths path).1 = "Game Boy") ∧
    (∀ (emulator_paths : List (String × String)) (path : String),
      pathSuffix (lowerStr path) = ".sav" →
      substrB "nes" (lowerStr path) = true →
      substrB "gb" (lowerStr path) = false →
      substrB "gbc" (lowerStr path) = false →
      substrB "gba" (lowerStr path) = false →
      substrB "snes" (lowerStr path) = false →
      (detect_console_type emulator_paths path).1 = "NES") := by
  constructor
  · intro emu path hext hgba
    have hgb : substrB "gb" (lowerStr path) = true :=
      substrB_mono (by decide) _ hgba
    have hfind : savSub.find? (fun kv => substrB kv.1 (lowerStr path)) =
        some ("gb", ("Game Boy", "mGBA/VBA", "Original")) := by
      rw [savSub, List.find?_cons]
      simp [hgb]
    simp only [detect_console_type, hext]
    rw [show console_patterns.find? (fun p => ((".sav" : String) == p.1)) =
        some (".sav", ConsoleInfo.sub savSub) from rfl]
    simp only [subLookup, hfind]
  · intro emu path hext h1 h2 h3 h4 h5
    have hfind : savSub.find? (fun kv => substrB kv.1 (lowerStr path)) =
        some ("nes", ("NES", "FCEUX", "Original")) := by
      rw [savSub]
      rw [List.find?_cons]; simp only [h2]
      rw [List.find?_cons]; simp only [h3]
      rw [List.find?_cons]; simp only [h4]
      rw [List.find?_cons]; simp only [h1]
    simp only [detect_console_type, hext]
    rw [show console_patterns.find? (fun p => ((".sav" : String) == p.1)) =
        some (".sav", ConsoleInfo.sub savSub) from rfl]
    simp only [subLookup, hfind]

/-- C1, witness: the amended claim at two concrete paths. -/
theorem C1_witness :
    (detect_console_type [] "/pkm/gba/red.sav").1 = "Game Boy" ∧
    (detect_console_type [] "/roms/nes/mario.sav").1 = "NES" :=
  ⟨C1_theorem.1 [] "/pkm/gba/red.sav" (by decide) (by decide),
   C1_theorem.2 [] "/roms/nes/mario.sav" (by decide) (by decide) (by decide)
     (by decide) (by decide) (by decide)⟩

/-- C5 (confirmed): `detect_console_type` is a total function of the
path (it returns exactly one triple and, in this embedding of every
reachable code path, cannot fail), and any extension matching no table
entry yields exactly `("PC", "Unknown", "Unknown")`. -/
theorem C5_theorem : ∀ (emulator_paths : List (String × String)) (path : String),
    pathSuffix (lowerStr path) ∉ console_patterns.map Prod.fst →
    detect_console_type emulator_paths path = ("PC", "Unknown", "Unknown") := by
  intro emu path h
  have hfind : console_patterns.find?
      (fun p => pathSuffix (lowerStr path) == p.1) = none := by
    rw [List.find?_eq_none]
    intro x hx hbeq
    exact h (eq_of_beq hbeq ▸ List.mem_map_of_mem Prod.fst hx)
  simp only [detect_console_type, hfind]

/-- C5, witness: the unrecognized extension `.xyz` of the spec's own
example. -/
theorem C5_witness :
    detect_console_type [] "/saves/file.xyz" = ("PC", "Unknown", "Unknown") :=
  C5_theorem [] "/saves/file.xyz" (by decide)

/-- C6 (confirmed): the emulator field is resolved exactly as the spec
describes — first "/"-separated candidate, configured non-empty path
wins, otherwise the original label — and the spec's `mGBA/VBA` examples
hold through `detect_console_type`. -/
theorem C6_theorem :
    (∀ (emulator_paths : List (String × String)) (label : String),
      resolveEmulator emulator_paths label = resolveEmulatorSpec emulator_paths label) ∧
    detect_console_type [("mGBA", "/opt/mgba")] "/games/gb/x.sav" =
      ("Game Boy", "/opt/mgba", "Original") ∧
    detect_console_type [] "/games/gb/x.sav" = ("Game Boy", "mGBA/VBA", "Original") := by
  refine ⟨?_, rfl, rfl⟩
  intro emu label
  simp only [resolveEmulator, resolveEmulatorSpec]
  rcases h : emu.find?
      (fun p => p.1 == String.mk ((splitChar '/' label.data).headD [])) with _ | ⟨k, cfg⟩
  · rw [h]; simp
  · rw [h]
    simp only [Option.map_some', Option.getD_some]
    by_cases hc : cfg = "" <;> simp [hc]

/-- C7 (confirmed): when the extension selects a sub-mapping and no key
of it occurs in the lower-cased path, the result is the sub-mapping's
first-defined entry with its emulator label resolved — a deterministic
default, not an error. -/
theorem C7_theorem : ∀ (emulator_paths : List (String × String)) (path e k : String)
    (v : Triple) (m : List (String × Triple)),
    console_patterns.find? (fun p => pathSuffix (lowerStr path) == p.1) =
      some (e, ConsoleInfo.sub ((k, v) :: m)) →
    ((k, v) :: m).find? (fun kv => substrB kv.1 (lowerStr path)) = none →
    detect_console_type emulator_paths path =
      (v.1, resolveEmulator emulator_paths v.2.1, v.2.2) := by
  intro emu path e k v m h1 h2
  simp only [detect_console_type, h1, subLookup, h2]

/-- C7, witness: a `.sav` path containing no sub-mapping key falls back
to the first `.sav` entry. -/
theorem C7_witness :
    detect_console_type [] "/saves/x.sav" = ("Game Boy", "mGBA/VBA", "Original") :=
  C7_theorem [] "/saves/x.sav" ".sav" "gb" ("Game Boy", "mGBA/VBA", "Original")
    [("gbc",  ("GBC", "mGBA/VBA", "Color")),
     ("gba",  ("GBA", "mGBA/VBA", "Advance")),
     ("nes",  ("NES", "FCEUX", "Original")),
     ("snes", ("SNES", "SNES9x", "Original"))] rfl rfl

/-! ### Claims about the scanner -/

/-- C2, counterexample: for a root on which the listing fails
(nonexistent or permission-denied), `scan_directory` quietly returns the
empty list and the thread reports successful completion — no error is
surfaced, contrary to the claim. -/
theorem C2_counterexample :
    scan_directory none [] "/missing" (.dir "missing" none) = .ok [] ∧
    scannerRun none [] "/missing" (.dir "missing" none) = .finished [] := ⟨rfl, rfl⟩

/-- C2 (amended): for every inaccessible root, `scan_directory` raises
nothing and returns the empty list (`os.walk` is invoked without an
`onerror` handler, so the failed `scandir` is swallowed), and
`ScannerThread.run` therefore emits the success signal with zero
results; the caller cannot distinguish this from an empty directory. -/
theorem C2_theorem : ∀ (cfgFile : Option (Except String IgnoreData))
    (emulator_paths : List (String × String)) (directory n : String),
    scan_directory cfgFile emulator_paths directory (.dir n none) = .ok [] ∧
    scannerRun cfgFile emulator_paths directory (.dir n none) = .finished [] := by
  intro cfg emu dir n
  exact ⟨rfl, rfl⟩

/-- C3, counterexample: a tree with two healthy matched files and one
matched file removed between listing and stat.  The claim promises
records for the two healthy files with the anomalous entry omitted, but
the scan aborts: `os.path.getmtime` raises and nothing in
`scan_directory` catches it, so no record at all is returned. -/
theorem C3_counterexample :
    scan_directory none [] "/r" (.dir "r" (some
      [.file "good1.sav" (some 1), .file "gone.sav" none, .file "good2.sav" (some 2)])) =
    .error "No such file or directory: /r/gone.sav" := rfl

/-- C3 (amended): a filesystem anomaly on a SUBDIRECTORY (listing
failure) is tolerated — the walk silently skips the subtree and every
other record is returned unchanged; but an anomaly on a MATCHED FILE
(removed between listing and stat) aborts the whole scan with the
exception surfaced to the caller, omitting all records. -/
theorem C3_theorem :
    (∀ (ignore_dirs ignore_files : List String) (emulator_paths : List (String × String))
      (root nm m : String) (es1 es2 : List FSEntry),
      scanWalk ignore_dirs ignore_files emulator_paths root
        (.dir nm (some (es1 ++ .dir m none :: es2))) =
      scanWalk ignore_dirs ignore_files emulator_paths root
        (.dir nm (some (es1 ++ es2)))) ∧
    (∀ (ignore_dirs ignore_files : List String) (emulator_paths : List (String × String))
      (root nm name : String) (rest : List FSEntry),
      name ∉ ignore_files →
      String.mk ((sufChars name.data).map lowerChar) ∈ save_extensions →
      scanWalk ignore_dirs ignore_files emulator_paths root
        (.dir nm (some (.file name none :: rest))) =
      .error ("No such file or directory: " ++ joinPath root name)) := by
  constructor
  · intro igd igf emu root nm m es1 es2
    simp only [scanWalk, scanFilesList_dirdrop, scanSubdirs_errdrop]
  · intro igd igf emu root nm name rest h1 h2
    simp [scanWalk, scanFilesList, h1, h2]

/-- C3, witness: both amended behaviours at concrete trees. -/
theorem C3_witness :
    scanWalk [] ["skip.txt"] [] "/r" (.dir "r" (some
      (([] : List FSEntry) ++ .dir "sub" none :: [.file "a.sav" (some 1)]))) =
    scanWalk [] ["skip.txt"] [] "/r" (.dir "r" (some ([] ++ [.file "a.sav" (some 1)]))) ∧
    scanWalk [] [] [] "/r" (.dir "r" (some [.file "gone.sav" none])) =
      .error ("No such file or directory: " ++ joinPath "/r" "gone.sav") :=
  ⟨C3_theorem.1 [] ["skip.txt"] [] "/r" "r" "sub" [] [.file "a.sav" (some 1)],
   C3_theorem.2 [] [] [] "/r" "r" "gone.sav" [] (by decide) (by decide)⟩

/-- C4, counterexample: the claim says a RUN of separators becomes a
single space, but the code substitutes one space per character:
`A__B.sav` scans to game_name `"A  B"` (two spaces), while the
spec-worded cleanup gives `"A B"`. -/
theorem C4_counterexample :
    scan_directory none [] "/r" (.dir "r" (some [.file "A__B.sav" (some 0)])) =
      .ok [{ console_type := "Game Boy", game_name := "A  B", save_path := "/r/A__B.sav",
             date_modified := 0, emulator := "mGBA/VBA", hardware_type := "Original" }] ∧
    gameNameSpecRuns "A__B.sav" = "A B" ∧ ("A  B" : String) ≠ "A B" :=
  ⟨rfl, rfl, by decide⟩

/-- C4 (amended): game_name is the stem with bracketed runs removed,
each INDIVIDUAL `.`, `_`, `-` character replaced by one space (a run of
k separators yields k spaces), then trimmed; the spec's two examples
hold (`Zelda`, `Super Mario World`), and `A__B.sav` yields `"A  B"`. -/
theorem C4_theorem :
    scan_directory none [] "/saves" (.dir "saves" (some
      [.file "Zelda (USA) [v1.1].sav" (some 11),
       .file "Super_Mario-World.srm" (some 12),
       .file "A__B.sav" (some 13)])) =
    .ok [{ console_type := "Game Boy", game_name := "Zelda",
           save_path := "/saves/Zelda (USA) [v1.1].sav", date_modified := 11,
           emulator := "mGBA/VBA", hardware_type := "Original" },
         { console_type := "SNES", game_name := "Super Mario World",
           save_path := "/saves/Super_Mario-World.srm", date_modified := 12,
           emulator := "SNES9x", hardware_type := "Original" },
         { console_type := "Game Boy", game_name := "A  B",
           save_path := "/saves/A__B.sav", date_modified := 13,
           emulator := "mGBA/VBA", hardware_type := "Original" }] := rfl

/-- C8 (confirmed): first, every record of a successful scan corresponds
to an actual chain of nested directory ENTRIES of the scanned tree
(`TreePath`), each of whose names avoids `ignore_directories`, with the
record's save_path spelled from exactly that chain — so no record lies
under an ignored subdirectory at any depth; second, an ignored
subdirectory entry is pruned before descent, making its entire subtree
irrelevant: deleting it from the listing leaves the scan result
unchanged; third, the spec's instance — a `.sav` inside an ignored
`cache` under the root never appears, the scan returns the empty
list. -/
theorem C8_theorem :
    (∀ (ignore_dirs ignore_files : List String)
      (emulator_paths : List (String × String)) (root : String) (t : FSEntry)
      (rs : List SaveInfo),
      scanWalk ignore_dirs ignore_files emulator_paths root t = .ok rs →
      ∀ r ∈ rs, ∃ comps name mt, (∀ c ∈ comps, c ∉ ignore_dirs) ∧
        TreePath t comps name mt ∧
        r.save_path = joinPath (chainPath root comps) name) ∧
    (∀ (ignore_dirs ignore_files : List String)
      (emulator_paths : List (String × String)) (root nm d : String)
      (sub : Option (List FSEntry)) (es1 es2 : List FSEntry), d ∈ ignore_dirs →
      scanWalk ignore_dirs ignore_files emulator_paths root
        (.dir nm (some (es1 ++ .dir d sub :: es2))) =
      scanWalk ignore_dirs ignore_files emulator_paths root
        (.dir nm (some (es1 ++ es2)))) ∧
    scan_directory (some (.ok ⟨some ["cache"], none⟩)) [] "/r"
      (.dir "r" (some [.dir "cache" (some [.file "x.sav" (some 1)])])) = .ok [] := by
  refine ⟨?_, ?_, rfl⟩
  · intro igd igf emu root t
    refine scanWalk.induct igd igf emu
      (fun root t => ∀ rs, scanWalk igd igf emu root t = .ok rs →
        ∀ r ∈ rs, ∃ comps name mt, (∀ c ∈ comps, c ∉ igd) ∧
          TreePath t comps name mt ∧
          r.save_path = joinPath (chainPath root comps) name)
      (fun root es => ∀ rs, scanSubdirs igd igf emu root es = .ok rs →
        ∀ r ∈ rs, ∃ d sub comps name mt, FSEntry.dir d sub ∈ es ∧ d ∉ igd ∧
          (∀ c ∈ comps, c ∉ igd) ∧ TreePath (.dir d sub) comps name mt ∧
          r.save_path = joinPath (chainPath (joinPath root d) comps) name)
      ?_ ?_ ?_ ?_ ?_ ?_ ?_ ?_ ?_ ?_ ?_ root t
    · intro root name mt rs h r hr
      simp only [scanWalk, Except.ok.injEq] at h
      subst h; simp at hr
    · intro root name rs h r hr
      simp only [scanWalk, Except.ok.injEq] at h
      subst h; simp at hr
    · intro root name entries e hf rs h
      simp [scanWalk, hf] at h
    · intro root name entries rs1 hf e hs ih rs h
      simp [scanWalk, hf, hs] at h
    · intro root name entries rs1 hf srecs hs ih rs h r hr
      simp only [scanWalk, hf, hs, Except.ok.injEq] at h
      subst h
      rcases List.mem_append.mp hr with hr1 | hr2
      · rcases scanFilesList_sound igf emu root entries rs1 hf r hr1 with ⟨nm, mt, hmem, hp⟩
        exact ⟨[], nm, mt, by simp, TreePath.here _ _ _ _ hmem, hp⟩
      · rcases ih srecs hs r hr2 with ⟨d, sub, comps, nm, mt, hmem, hd, hc, htp, hp⟩
        refine ⟨d :: comps, nm, mt, ?_, TreePath.deeper _ _ _ _ _ _ _ hmem htp, hp⟩
        intro c hc2
        rcases List.mem_cons.mp hc2 with rfl | hc3
        · exact hd
        · exact hc c hc3
    · intro root rs h r hr
      simp only [scanSubdirs, Except.ok.injEq] at h
      subst h; simp at hr
    · intro root name mt rest ih rs h r hr
      simp only [scanSubdirs] at h
      rcases ih rs h r hr with ⟨d, sub, comps, nm, mt2, hmem, rest2⟩
      exact ⟨d, sub, comps, nm, mt2, List.mem_cons_of_mem _ hmem, rest2⟩
    · intro root n l rest hn ih rs h r hr
      simp only [scanSubdirs, if_pos hn] at h
      rcases ih rs h r hr with ⟨d, sub, comps, nm, mt2, hmem, rest2⟩
      exact ⟨d, sub, comps, nm, mt2, List.mem_cons_of_mem _ hmem, rest2⟩
    · intro root n l rest hn e hw ih rs h
      simp [scanSubdirs, if_neg hn, hw] at h
    · intro root n l rest hn rs1 hw e hs ih1 ih2 rs h
      simp [scanSubdirs, if_neg hn, hw, hs] at h
    · intro root n l rest hn rs1 hw rs2 hs ih1 ih2 rs h r hr
      simp only [scanSubdirs, if_neg hn, hw, hs, Except.ok.injEq] at h
      subst h
      rcases List.mem_append.mp hr with hr1 | hr2
      · rcases ih1 rs1 hw r hr1 with ⟨comps, nm, mt, hc, htp, hp⟩
        exact ⟨n, l, comps, nm, mt, List.mem_cons_self _ _, hn, hc, htp, hp⟩
      · rcases ih2 rs2 hs r hr2 with ⟨d, sub, comps, nm, mt2, hmem, rest2⟩
        exact ⟨d, sub, comps, nm, mt2, List.mem_cons_of_mem _ hmem, rest2⟩
  · intro igd igf emu root nm d sub es1 es2 hd
    simp only [scanWalk, scanFilesList_dirdrop, scanSubdirs_igdrop _ _ _ _ _ _ _ _ hd]

/-- C8, witness: the record found under the non-ignored `sub` of a tree
scanned with `cache` ignored lies on a real, ignored-free entry chain of
that tree; and dropping an ignored `cache` entry from a root listing
leaves the scan unchanged. -/
theorem C8_witness :
    (∃ comps name mt, (∀ c ∈ comps, c ∉ (["cache"] : List String)) ∧
      TreePath (.dir "r" (some [.dir "sub" (some [.file "y.sav" (some 1)])]))
        comps name mt ∧
      ("/r/sub/y.sav" : String) = joinPath (chainPath "/r" comps) name) ∧
    scanWalk ["cache"] [] [] "/r"
      (.dir "r" (some ([] ++ .dir "cache" (some [.file "x.sav" (some 1)]) :: []))) =
    scanWalk ["cache"] [] [] "/r" (.dir "r" (some ([] ++ []))) := by
  constructor
  · have h := C8_theorem.1 ["cache"] [] [] "/r"
      (.dir "r" (some [.dir "sub" (some [.file "y.sav" (some 1)])]))
      [{ console_type := "Game Boy", game_name := "y", save_path := "/r/sub/y.sav",
         date_modified := 1, emulator := "mGBA/VBA", hardware_type := "Original" }] rfl
    exact h { console_type := "Game Boy", game_name := "y", save_path := "/r/sub/y.sav",
              date_modified := 1, emulator := "mGBA/VBA", hardware_type := "Original" }
      (List.mem_singleton.mpr rfl)
  · exact C8_theorem.2.1 ["cache"] [] [] "/r" "r" "cache"
      (some [.file "x.sav" (some 1)]) [] [] (by decide)

/-- C9 (confirmed): a missing `ignore.json` and an unparsable one both
load as two empty lists, and scanning under either configuration is
literally the same function of the tree as scanning under an explicit
empty ignore-list configuration. -/
theorem C9_theorem : ∀ (e : String) (emulator_paths : List (String × String))
    (directory : String) (tree : FSEntry),
    load_ignore_list none = ([], []) ∧
    load_ignore_list (some (.error e)) = ([], []) ∧
    scan_directory none emulator_paths directory tree =
      scan_directory (some (.ok ⟨some [], some []⟩)) emulator_paths directory tree ∧
    scan_directory (some (.error e)) emulator_paths directory tree =
      scan_directory (some (.ok ⟨some [], some []⟩)) emulator_paths directory tree := by
  intro e emu dir t
  exact ⟨rfl, rfl, rfl, rfl⟩

/-- C10 (confirmed): the walk never consults the root directory's own
name (so a root whose name is in `ignore_directories` is still scanned),
ignored-file and ignored-directory matching are case-sensitive exact
comparisons, and extension membership is tested case-insensitively:
`FOO.SAV` is matched despite an `ignore_files` entry `foo.sav`, and a
subdirectory `Cache` is descended despite `cache` being ignored. -/
theorem C10_theorem :
    (∀ (ignore_dirs ignore_files : List String) (emulator_paths : List (String × String))
      (root n n2 : String) (l : Option (List FSEntry)),
      scanWalk ignore_dirs ignore_files emulator_paths root (.dir n l) =
      scanWalk ignore_dirs ignore_files emulator_paths root (.dir n2 l)) ∧
    scan_directory (some (.ok ⟨some ["r"], none⟩)) [] "/r"
      (.dir "r" (some [.file "x.sav" (some 1)])) =
      .ok [{ console_type := "Game Boy", game_name := "x", save_path := "/r/x.sav",
             date_modified := 1, emulator := "mGBA/VBA", hardware_type := "Original" }] ∧
    scan_directory (some (.ok ⟨none, some ["foo.sav"]⟩)) [] "/r"
      (.dir "r" (some [.file "FOO.SAV" (some 2)])) =
      .ok [{ console_type := "Game Boy", game_name := "FOO", save_path := "/r/FOO.SAV",
             date_modified := 2, emulator := "mGBA/VBA", hardware_type := "Original" }] ∧
    scan_directory (some (.ok ⟨some ["cache"], none⟩)) [] "/r"
      (.dir "r" (some [.dir "Cache" (some [.file "x.sav" (some 3)])])) =
      .ok [{ console_type := "Game Boy", game_name := "x", save_path := "/r/Cache/x.sav",
             date_modified := 3, emulator := "mGBA/VBA", hardware_type := "Original" }] := by
  refine ⟨?_, rfl, rfl, rfl⟩
  intro igd igf emu root n n2 l
  cases l <;> rfl

end GPGSM
